import Mathlib

/-!
Shallow embedding of the upload/transfer scheduler of `rendy`
(`src/factory/src/upload.rs`, together with the image metadata accessor
`src/resource/src/image.rs`), and proofs of the specification claims about it.

Modelling conventions:
* GPU handles (raw buffers, images, fences, command buffers) are identified by
  `Nat` ids.  A command buffer additionally carries the list of commands that
  have been recorded into it.
* `Vec` is a `List` in the same order; `Vec::pop` removes the last element.
  `VecDeque` is a `List` whose head is the front (`push_back` appends,
  `pop_front` takes the head).
* The device collaborator is modelled on its success path: `create_fence`
  always yields a fresh fence id drawn from a per-family counter
  (`nextFenceId`), and `pool.allocate_buffers` yields a fresh command buffer id
  from `nextBufferId`.  The out-of-memory failure path of these calls is not
  relevant to any claim.
* `device.get_fence_status` is a parameter `status : Nat → FenceStatus` with
  the three outcomes of the source (`Ok(true)`, `Ok(false)`,
  `Err(DeviceLost)`).
* A Rust `panic!`/`unimplemented!` is the `panicked` outcome of
  `UploadResult`; it is distinct from any returned error value.
* The barrier batch (`Barriers`, external to the core) is modelled through its
  narrow contract: an accumulator of requests; `encode_before`/`encode_after`
  emit an encoding command into the target command buffer.
-/

/-- Image layout, from `gfx_hal::image::Layout`. -/
inductive Layout where
  | General
  | ColorAttachmentOptimal
  | DepthStencilAttachmentOptimal
  | DepthStencilReadOnlyOptimal
  | ShaderReadOnlyOptimal
  | TransferSrcOptimal
  | TransferDstOptimal
  | Undefined
  | Preinitialized
  | Present
deriving DecidableEq, Repr, Fintype

/-- Queue identifier: family index and queue index, from `QueueId`. -/
structure QueueId where
  family : Nat
  index : Nat
deriving DecidableEq, Repr

/-- `BufferState`: how a buffer is used on the device (upload.rs lines 17-27).
Pipeline stage and access masks are opaque bitmask values, modelled as `Nat`. -/
structure BufferState where
  queue : QueueId
  stage : Nat
  access : Nat
deriving DecidableEq, Repr

/-- `ImageState`: how an image is used on the device (upload.rs lines 52-66). -/
structure ImageState where
  queue : QueueId
  stage : Nat
  access : Nat
  layout : Layout
deriving DecidableEq, Repr

/-- `ImageStateOrLayout` (upload.rs lines 92-100). -/
inductive ImageStateOrLayout where
  | State (state : ImageState)
  | Layout (layout : Layout)
deriving DecidableEq, Repr

/-- `PipelineStage::TOP_OF_PIPE` bit. -/
def TOP_OF_PIPE : Nat := 1

/-- `gfx_hal::image::Access::empty()`. -/
def imageAccessEmpty : Nat := 0

/-- `gfx_hal::image::Offset` (signed coordinates). -/
structure Offset where
  x : Int
  y : Int
  z : Int
deriving DecidableEq, Repr

/-- `gfx_hal::image::Offset::ZERO`. -/
def Offset.ZERO : Offset := { x := 0, y := 0, z := 0 }

/-- `gfx_hal::image::Extent`. -/
structure Extent where
  width : Nat
  height : Nat
  depth : Nat
deriving DecidableEq, Repr

/-- `gfx_hal::image::Kind` (image dimensionality and size). -/
inductive Kind where
  | D1 (width : Nat) (layers : Nat)
  | D2 (width : Nat) (height : Nat) (layers : Nat) (samples : Nat)
  | D3 (width : Nat) (height : Nat) (depth : Nat)
deriving DecidableEq, Repr

/-- `Kind::extent()` of gfx_hal: the full extent of an image of this kind. -/
def Kind.extent : Kind → Extent
  | .D1 w _ => { width := w, height := 1, depth := 1 }
  | .D2 w h _ _ => { width := w, height := h, depth := 1 }
  | .D3 w h d => { width := w, height := h, depth := d }

/-- `ImageInfo` (image.rs lines 16-35), restricted to the fields the scheduler
reads. -/
structure ImageInfo where
  kind : Kind
  levels : Nat
deriving DecidableEq, Repr

/-- `Image` resource wrapper (image.rs lines 42-49): raw handle id plus info. -/
structure Image where
  id : Nat
  info : ImageInfo
deriving DecidableEq, Repr

/-- `Image::kind` (image.rs lines 163-165). -/
def Image.kind (i : Image) : Kind := i.info.kind

/-- A buffer resource: raw handle id and size in bytes (the fields of
`Buffer`/`Escape<Buffer>` that the scheduler reads: `.raw()` and `.size()`). -/
structure Buffer where
  id : Nat
  size : Nat
deriving DecidableEq, Repr

/-- `gfx_hal::image::SubresourceLayers`: one mip level, an aspect mask and a
layer range (`layers : (start, end)` half-open). -/
structure SubresourceLayers where
  aspects : Nat
  level : Nat
  layers : Nat × Nat
deriving DecidableEq, Repr

/-- `gfx_hal::image::SubresourceRange`: aspect mask, half-open level range and
half-open layer range. -/
structure SubresourceRange where
  aspects : Nat
  levels : Nat × Nat
  layers : Nat × Nat
deriving DecidableEq, Repr

/-- `gfx_hal::command::BufferCopy` region. -/
structure BufferCopy where
  src : Nat
  dst : Nat
  size : Nat
deriving DecidableEq, Repr

/-- `gfx_hal::command::BufferImageCopy` region. -/
structure BufferImageCopy where
  buffer_offset : Nat
  buffer_width : Nat
  buffer_height : Nat
  image_layers : SubresourceLayers
  image_offset : Offset
  image_extent : Extent
deriving DecidableEq, Repr

/-- A barrier request accumulated by the external `Barriers` batch for an
image: the arguments of `Barriers::add_image`. -/
structure ImageBarrierReq where
  image : Nat
  range : SubresourceRange
  last_stage : Nat
  last_access : Nat
  last_layout : Layout
  target_layout : Layout
  next_stage : Nat
  next_access : Nat
  next_layout : Layout
deriving DecidableEq, Repr

/-- A request accumulated by the external `Barriers` batch: the arguments of
`add_buffer` (optional previous stage/access and next stage/access) or of
`add_image`. -/
inductive BarrierReq where
  | buffer (last : Option (Nat × Nat)) (next : Nat × Nat)
  | image (req : ImageBarrierReq)
deriving DecidableEq, Repr

/-- The external `Barriers` accumulator, modelled through its contract:
a list of pending requests. -/
structure Barriers where
  reqs : List BarrierReq
deriving DecidableEq, Repr

/-- `Barriers::add_buffer`. -/
def Barriers.add_buffer (b : Barriers) (last : Option (Nat × Nat))
    (next : Nat × Nat) : Barriers :=
  { reqs := b.reqs ++ [BarrierReq.buffer last next] }

/-- `Barriers::add_image`. -/
def Barriers.add_image (b : Barriers) (image : Nat) (range : SubresourceRange)
    (last_stage last_access : Nat) (last_layout target_layout : Layout)
    (next_stage next_access : Nat) (next_layout : Layout) : Barriers :=
  { reqs := b.reqs ++ [BarrierReq.image
      { image := image, range := range, last_stage := last_stage,
        last_access := last_access, last_layout := last_layout,
        target_layout := target_layout, next_stage := next_stage,
        next_access := next_access, next_layout := next_layout }] }

/-- A command recorded into a command buffer: `copy_buffer`,
`copy_buffer_to_image`, or the encoding of the barrier batch emitted during
flush (`encode_before`/`encode_after`). -/
inductive Command where
  | copyBuffer (src dst : Nat) (region : BufferCopy)
  | copyBufferToImage (src dst : Nat) (dstLayout : Layout)
      (region : BufferImageCopy)
  | beforeBarriers (reqs : List BarrierReq)
  | afterBarriers (reqs : List BarrierReq)
deriving DecidableEq, Repr

/-- A command buffer: raw id plus the commands recorded into it since its last
reset. -/
structure CmdBuffer where
  id : Nat
  cmds : List Command
deriving DecidableEq, Repr

/-- `NextUploads` (upload.rs lines 366-374): a recording batch — barrier
buffer, copy buffer, owned staging buffers (by id), fence. -/
structure NextUploads where
  barriers_buffer : CmdBuffer
  command_buffer : CmdBuffer
  staging_buffers : List Nat
  fence : Nat
deriving DecidableEq, Repr

/-- `PendingUploads` (upload.rs lines 358-364): a submitted batch. -/
structure PendingUploads where
  barriers_buffer : CmdBuffer
  command_buffer : CmdBuffer
  staging_buffers : List Nat
  fence : Nat
deriving DecidableEq, Repr

/-- `FamilyUploads` (upload.rs lines 347-356).  `nextBufferId`/`nextFenceId`
model the pool's and device's fresh-handle supply (see file header). -/
structure FamilyUploads where
  barriers_buffers : List CmdBuffer
  command_buffers : List CmdBuffer
  next : List (Option NextUploads)
  pending : List PendingUploads
  fences : List Nat
  barriers : Barriers
  nextBufferId : Nat
  nextFenceId : Nat
deriving DecidableEq, Repr

/-- Result of `device.get_fence_status`: `Ok(true)`, `Ok(false)` or
`Err(DeviceLost)`. -/
inductive FenceStatus where
  | signaled
  | unsignaled
  | deviceLost
deriving DecidableEq, Repr

/-- Reason for a Rust panic in the modelled code. -/
inductive PanicReason where
  | crossQueueSync
  | deviceLostUnhandled
deriving DecidableEq, Repr

/-- Outcome of an upload request: normal return, or a process-aborting panic
(`unimplemented!`).  The source function returns `Result<(), failure::Error>`
but its only failure paths are device allocation failures (not modelled, see
file header); no error value is ever produced for the panic cases. -/
inductive UploadResult where
  | ok (fu : FamilyUploads)
  | panicked (reason : PanicReason)
deriving DecidableEq, Repr

/-- `Vec::pop`: remove and return the last element. -/
def vecPop {α : Type} : List α → Option (α × List α)
  | [] => none
  | x :: xs =>
    match vecPop xs with
    | none => some (x, [])
    | some (y, ys) => some (y, x :: ys)

/-- The `while self.next.len() <= queue { self.next.push(None); }` loop of
`next_upload`, in closed form. -/
def padNext (l : List (Option NextUploads)) (queue : Nat) :
    List (Option NextUploads) :=
  l ++ List.replicate (queue + 1 - l.length) none

/-- `self.command_buffers.pop().unwrap_or_else(|| pool.allocate_buffers(1)…)`
(and the same for `barriers_buffers`): pooled buffer if available, otherwise a
fresh one from the pool's id supply.  Returns the buffer, the remaining
free-list, and the updated id supply. -/
def popOrAlloc (l : List CmdBuffer) (fresh : Nat) :
    CmdBuffer × List CmdBuffer × Nat :=
  match vecPop l with
  | some (x, rest) => (x, rest, fresh)
  | none => ({ id := fresh, cmds := [] }, l, fresh + 1)

/-- `self.fences.pop().map_or_else(|| device.create_fence(false), Ok)`:
pooled fence if available, otherwise a fresh one from the device's id
supply. -/
def popOrCreateFence (l : List Nat) (fresh : Nat) : Nat × List Nat × Nat :=
  match vecPop l with
  | some (f, rest) => (f, rest, fresh)
  | none => (fresh, l, fresh + 1)

/-- `FamilyUploads::next_upload` (upload.rs lines 410-447): pad `next` with
`None` up to index `queue`, then reuse the recording batch in that slot or
build one from pooled (or fresh) command buffers and a pooled (or fresh)
fence.  `begin(OneShot, ())` only changes the type-state of the buffer and is
the identity here. -/
def FamilyUploads.next_upload (fu : FamilyUploads) (queue : Nat) :
    FamilyUploads :=
  match (padNext fu.next queue).getD queue none with
  | some _ => { fu with next := padNext fu.next queue }
  | none =>
    let c := popOrAlloc fu.command_buffers fu.nextBufferId
    let bb := popOrAlloc fu.barriers_buffers c.2.2
    let f := popOrCreateFence fu.fences fu.nextFenceId
    { fu with
      next := (padNext fu.next queue).set queue (some
        { barriers_buffer := bb.1, command_buffer := c.1,
          staging_buffers := [], fence := f.1 }),
      command_buffers := c.2.1,
      barriers_buffers := bb.2.1,
      fences := f.2.1,
      nextBufferId := bb.2.2,
      nextFenceId := f.2.2 }

/-- Append a copy command to a recording batch's copy command buffer and push
a staging buffer onto its owned list (the two mutations `upload_buffer` and
`upload_image` perform through the `&mut NextUploads` from `next_upload`). -/
def NextUploads.push (b : NextUploads) (c : Command) (staging : Nat) :
    NextUploads :=
  { b with
    command_buffer :=
      { b.command_buffer with cmds := b.command_buffer.cmds ++ [c] },
    staging_buffers := b.staging_buffers ++ [staging] }

/-- Recording through the `&mut NextUploads` returned by `next_upload`. -/
def FamilyUploads.record (fu : FamilyUploads) (queue : Nat) (c : Command)
    (staging : Nat) : FamilyUploads :=
  { fu with
    next := fu.next.set queue
      ((fu.next.getD queue none).map fun b => b.push c staging) }

/-- The `if let Some(last) = last { if last.queue != next.queue { … } }`
cross-queue test of `upload_buffer` (upload.rs lines 185-189). -/
def crossQueueCheck (last : Option BufferState) (next : BufferState) : Bool :=
  match last with
  | some l => decide (l.queue ≠ next.queue)
  | none => false

/-- `Uploader::upload_buffer` (upload.rs lines 171-210), at the level of the
locked `FamilyUploads` of `next.queue.family`: panic on a cross-queue
transfer, register the buffer barrier, acquire the recording batch for
`next.queue.index`, record the copy (whole staging buffer, source offset 0,
destination `offset`) and transfer staging ownership into the batch. -/
def upload_buffer (fu : FamilyUploads) (buffer : Buffer) (offset : Nat)
    (staging : Buffer) (last : Option BufferState) (next : BufferState) :
    UploadResult :=
  if crossQueueCheck last next then
    UploadResult.panicked PanicReason.crossQueueSync
  else
    let fu := { fu with
      barriers := fu.barriers.add_buffer
        (last.map fun (l : BufferState) => (l.stage, l.access))
        (next.stage, next.access) }
    let fu := fu.next_upload next.queue.index
    UploadResult.ok (fu.record next.queue.index
      (Command.copyBuffer staging.id buffer.id
        { src := 0, dst := offset, size := staging.size })
      staging.id)

/-- Target layout selection of `upload_image` (upload.rs lines 268-272). -/
def target_layout (last_layout next_layout : Layout) : Layout :=
  match last_layout, next_layout with
  | _, Layout.General => Layout.General
  | Layout.General, _ => Layout.General
  | _, _ => Layout.TransferDstOptimal

/-- Tail of `upload_image` after layout resolution (upload.rs lines 268-303):
register the image barrier, acquire the recording batch and record the
buffer-to-image copy. -/
def upload_image_finish (fu : FamilyUploads) (image : Image)
    (image_range : SubresourceRange) (last_stage last_access : Nat)
    (last_layout : Layout) (data_width data_height : Nat)
    (image_layers : SubresourceLayers) (image_offset : Offset)
    (image_extent : Extent) (staging : Buffer) (next : ImageState) :
    UploadResult :=
  let tl := target_layout last_layout next.layout
  let fu := { fu with
    barriers := fu.barriers.add_image image.id image_range last_stage
      last_access last_layout tl next.stage next.access next.layout }
  let fu := fu.next_upload next.queue.index
  UploadResult.ok (fu.record next.queue.index
    (Command.copyBufferToImage staging.id image.id tl
      { buffer_offset := 0, buffer_width := data_width,
        buffer_height := data_height, image_layers := image_layers,
        image_offset := image_offset, image_extent := image_extent })
    staging.id)

/-- `Uploader::upload_image` (upload.rs lines 217-304): whole-image detection,
single-mip subresource range, cross-queue panic, last-layout resolution
(forced to `Undefined` for a whole-image region), then
`upload_image_finish`. -/
def upload_image (fu : FamilyUploads) (image : Image)
    (data_width data_height : Nat) (image_layers : SubresourceLayers)
    (image_offset : Offset) (image_extent : Extent) (staging : Buffer)
    (last : ImageStateOrLayout) (next : ImageState) : UploadResult :=
  let whole_image : Bool :=
    decide (image_offset = Offset.ZERO) &&
      decide (image_extent = image.kind.extent)
  let image_range : SubresourceRange :=
    { aspects := image_layers.aspects,
      levels := (image_layers.level, image_layers.level + 1),
      layers := image_layers.layers }
  match last with
  | ImageStateOrLayout.State l =>
    if l.queue ≠ next.queue then
      UploadResult.panicked PanicReason.crossQueueSync
    else
      let last_layout := if whole_image then Layout.Undefined else l.layout
      upload_image_finish fu image image_range l.stage l.access last_layout
        data_width data_height image_layers image_offset image_extent staging
        next
  | ImageStateOrLayout.Layout ll =>
    let last_layout := if whole_image then Layout.Undefined else ll
    upload_image_finish fu image image_range TOP_OF_PIPE imageAccessEmpty
      last_layout data_width data_height image_layers image_offset image_extent
      staging next

/-- One submission handed to `family.queue_mut(queue).submit_raw_fence`: the
queue index, the command buffers in submission order, and the fence. -/
structure Submission where
  queue : Nat
  buffers : List Nat
  fence : Nat
deriving DecidableEq, Repr

/-- Per-batch work of `FamilyUploads::flush` (upload.rs lines 386-406):
encode the before-barriers into the batch's barrier buffer and the
after-barriers into its copy buffer, build the two-buffer submission sharing
the batch's fence, and the pending record that is pushed onto the FIFO. -/
def flushStep (barriers : Barriers) (queue : Nat) (b : NextUploads) :
    Submission × PendingUploads :=
  let bb := { b.barriers_buffer with
    cmds := b.barriers_buffer.cmds ++ [Command.beforeBarriers barriers.reqs] }
  let cb := { b.command_buffer with
    cmds := b.command_buffer.cmds ++ [Command.afterBarriers barriers.reqs] }
  ({ queue := queue, buffers := [bb.id, cb.id], fence := b.fence },
    { barriers_buffer := bb, command_buffer := cb,
      staging_buffers := b.staging_buffers, fence := b.fence })

/-- The `self.next.drain(..).enumerate().filter_map(...)` loop of
`FamilyUploads::flush`: walk the drained slots in index order (the index
counter starts at `i`), skip empty slots, and produce the submissions and
pending records in that order. -/
def flushGo (barriers : Barriers) (i : Nat) :
    List (Option NextUploads) → List Submission × List PendingUploads
  | [] => ([], [])
  | none :: rest => flushGo barriers (i + 1) rest
  | some b :: rest =>
    ((flushStep barriers i b).1 :: (flushGo barriers (i + 1) rest).1,
      (flushStep barriers i b).2 :: (flushGo barriers (i + 1) rest).2)

/-- `FamilyUploads::flush` (upload.rs lines 380-408): drain every recording
batch in queue-index order, submit each (barrier buffer first, copy buffer
second, with the batch's fence) and push it onto the back of the pending
FIFO.  Returns the new state and the submissions in the order they were
issued. -/
def FamilyUploads.flush (fu : FamilyUploads) :
    FamilyUploads × List Submission :=
  let drained := { fu with next := ([] : List (Option NextUploads)), pending := fu.pending ++ (flushGo fu.barriers 0 fu.next).2 }
  (drained, (flushGo fu.barriers 0 fu.next).1)

/-- The `while let Some(pending) = self.pending.pop_front()` loop of
`FamilyUploads::cleanup` (upload.rs lines 455-474): split the FIFO into the
reclaimed prefix and the remaining suffix.  Stops at the first unsignaled
fence (pushing the batch back to the front); `none` models the
`panic!("Device lost ...")` arm. -/
def cleanupGo (status : Nat → FenceStatus) :
    List PendingUploads → Option (List PendingUploads × List PendingUploads)
  | [] => some ([], [])
  | p :: rest =>
    match status p.fence with
    | FenceStatus.unsignaled => some ([], p :: rest)
    | FenceStatus.deviceLost => none
    | FenceStatus.signaled =>
      (cleanupGo status rest).map fun (r, rem) => (p :: r, rem)

/-- The state mutations of the signaled arm of the cleanup loop, applied to
the whole reclaimed prefix: the remaining batches stay pending, reclaimed
fences are pushed onto the fence free-list, and the reclaimed command buffers
are reset (`mark_complete().reset()`, clearing their recorded commands) and
pushed onto the respective free-lists. -/
def afterCleanup (fu : FamilyUploads)
    (reclaimed remaining : List PendingUploads) : FamilyUploads :=
  { fu with
    pending := remaining,
    fences := fu.fences ++ reclaimed.map (fun p => p.fence),
    command_buffers := fu.command_buffers ++
      reclaimed.map (fun p => { p.command_buffer with cmds := [] }),
    barriers_buffers := fu.barriers_buffers ++
      reclaimed.map (fun p => { p.barriers_buffer with cmds := [] }) }

/-- `FamilyUploads::cleanup` (upload.rs lines 455-474): reclaim the signaled
prefix of the pending FIFO; the reclaimed batches' staging buffers are
dropped (released).  Returns the new state and the released staging buffer
ids; `none` models the device-lost panic. -/
def FamilyUploads.cleanup (status : Nat → FenceStatus) (fu : FamilyUploads) :
    Option (FamilyUploads × List Nat) :=
  (cleanupGo status fu.pending).map fun (reclaimed, remaining) =>
    (afterCleanup fu reclaimed remaining,
      (reclaimed.map (fun p => p.staging_buffers)).flatten)

/-- A buffer upload request (the caller-supplied arguments of
`upload_buffer`). -/
structure UploadReq where
  buffer : Buffer
  offset : Nat
  staging : Buffer
  last : Option BufferState
  next : BufferState
deriving DecidableEq, Repr

/-- Issue a sequence of buffer upload requests, propagating a panic. -/
def runUploads (fu : FamilyUploads) : List UploadReq → UploadResult
  | [] => UploadResult.ok fu
  | r :: rs =>
    match upload_buffer fu r.buffer r.offset r.staging r.last r.next with
    | UploadResult.ok fu' => runUploads fu' rs
    | UploadResult.panicked p => UploadResult.panicked p

/-- The copy command that `upload_buffer` records for a request. -/
def UploadReq.copyCmd (r : UploadReq) : Command :=
  Command.copyBuffer r.staging.id r.buffer.id
    { src := 0, dst := r.offset, size := r.staging.size }

/-- A request passes the cross-queue check of `upload_buffer`. -/
def UploadReq.valid (r : UploadReq) : Prop :=
  match r.last with
  | some l => l.queue = r.next.queue
  | none => True

/-- The layout reported by the caller in an `ImageStateOrLayout` (the state's
layout, or the bare layout). -/
def reportedLayout : ImageStateOrLayout → Layout
  | ImageStateOrLayout.State l => l.layout
  | ImageStateOrLayout.Layout ll => ll

/-- Extract the state of a successful upload, with a fallback. -/
def UploadResult.okOr (r : UploadResult) (d : FamilyUploads) : FamilyUploads :=
  match r with
  | UploadResult.ok fu => fu
  | UploadResult.panicked _ => d

/-- A freshly initialized `FamilyUploads` (the state built by
`Uploader::new`, upload.rs lines 146-160): empty free-lists, no recording
batches, empty pending FIFO, empty barrier accumulator. -/
def fuEmpty : FamilyUploads :=
  { barriers_buffers := [], command_buffers := [], next := [], pending := [],
    fences := [], barriers := { reqs := [] }, nextBufferId := 0,
    nextFenceId := 0 }

/-- Sample queue (family 0, queue index 0). -/
def qW : QueueId := { family := 0, index := 0 }

/-- Sample queue (family 0, queue index 1): same family, different queue. -/
def qW1 : QueueId := { family := 0, index := 1 }

/-- Sample 4x4 2D image. -/
def imgW : Image :=
  { id := 7, info := { kind := Kind.D2 4 4 1 1, levels := 1 } }

/-- Sample subresource layers: mip level 0, layers 0..1. -/
def layersW : SubresourceLayers := { aspects := 1, level := 0, layers := (0, 1) }

/-- Sample staging buffer. -/
def stagingW : Buffer := { id := 3, size := 64 }

/-- Sample destination buffer. -/
def bufW : Buffer := { id := 5, size := 256 }

/-- Sample next-state for buffer uploads, on `qW`. -/
def nextBufW : BufferState := { queue := qW, stage := 1, access := 1 }

/-- Sample next-state for image uploads, on `qW`. -/
def nextImgW : ImageState :=
  { queue := qW, stage := 1, access := 1,
    layout := Layout.ShaderReadOnlyOptimal }

/-- Sample pending batch with fence 0. -/
def pendW0 : PendingUploads :=
  { barriers_buffer := { id := 10, cmds := [] },
    command_buffer := { id := 11, cmds := [] },
    staging_buffers := [20], fence := 0 }

/-- Sample pending batch with fence 1. -/
def pendW1 : PendingUploads :=
  { barriers_buffer := { id := 12, cmds := [] },
    command_buffer := { id := 13, cmds := [] },
    staging_buffers := [21], fence := 1 }

/-- Family state with two submitted batches in the FIFO. -/
def fuPendW : FamilyUploads := { fuEmpty with pending := [pendW0, pendW1] }

/-- Fence status oracle: fence 0 unsignaled, every other fence signaled. -/
def statusW : Nat → FenceStatus := fun f =>
  if f = 0 then FenceStatus.unsignaled else FenceStatus.signaled

/-- Fence status oracle: every fence signaled. -/
def statusAll : Nat → FenceStatus := fun _ => FenceStatus.signaled

/-- Sample recording batch. -/
def batchW : NextUploads :=
  { barriers_buffer := { id := 14, cmds := [] },
    command_buffer := { id := 15, cmds := [] },
    staging_buffers := [22], fence := 2 }

/-- Family state with one recording batch on queue index 0. -/
def fuNextW : FamilyUploads := { fuEmpty with next := [some batchW] }

/-- Sample upload request on `qW`. -/
def reqW1 : UploadReq :=
  { buffer := bufW, offset := 0, staging := stagingW, last := none,
    next := nextBufW }

/-- Second sample upload request on `qW`. -/
def reqW2 : UploadReq :=
  { buffer := bufW, offset := 64, staging := { id := 4, size := 32 },
    last := none, next := nextBufW }

/-- The "before" layout that `upload_image` resolves from the caller-supplied
prior state/layout and the whole-image test. -/
def beforeLayout (image : Image) (image_offset : Offset)
    (image_extent : Extent) (last : ImageStateOrLayout) : Layout :=
  if (decide (image_offset = Offset.ZERO) &&
      decide (image_extent = image.kind.extent)) = true then
    Layout.Undefined
  else reportedLayout last

/-- Sample prior buffer state on `qW` (for the cross-queue scenario). -/
def lastBufX : BufferState := { queue := qW, stage := 1, access := 1 }

/-- Sample next buffer state on `qW1` (cross-queue with `lastBufX`). -/
def nextBufX : BufferState := { queue := qW1, stage := 1, access := 1 }

/-- Sample prior image state on `qW` (for the cross-queue scenario). -/
def lastImgX : ImageState :=
  { queue := qW, stage := 1, access := 1,
    layout := Layout.ShaderReadOnlyOptimal }

/-- Sample next image state on `qW1` (cross-queue with `lastImgX`). -/
def nextImgX : ImageState :=
  { queue := qW1, stage := 1, access := 1,
    layout := Layout.ShaderReadOnlyOptimal }

/-- Sample non-zero image offset (partial-region upload). -/
def offX : Offset := { x := 1, y := 0, z := 0 }

/-- Sample partial extent (smaller than `imgW`'s 4x4x1 extent). -/
def extX : Extent := { width := 1, height := 1, depth := 1 }

/-- Sample prior image state on `qW` (matching `nextImgW`'s queue). -/
def lastImgW : ImageState :=
  { queue := qW, stage := 1, access := 1,
    layout := Layout.ShaderReadOnlyOptimal }

/-- The full extent of `imgW` (4x4x1). -/
def extW : Extent := { width := 4, height := 4, depth := 1 }

/-- Result state of a concrete buffer upload into a fresh family. -/
def fuBufRes : FamilyUploads :=
  (upload_buffer fuEmpty bufW 0 stagingW none nextBufW).okOr fuEmpty

/-- Result state of a concrete whole-image upload into a fresh family. -/
def fuImgWholeRes : FamilyUploads :=
  (upload_image fuEmpty imgW 4 4 layersW Offset.ZERO extW stagingW
    (ImageStateOrLayout.State lastImgW) nextImgW).okOr fuEmpty

/-- Result state of a concrete partial-region image upload into a fresh
family. -/
def fuImgPartRes : FamilyUploads :=
  (upload_image fuEmpty imgW 4 4 layersW offX extX stagingW
    (ImageStateOrLayout.State lastImgW) nextImgW).okOr fuEmpty

/-- Result state of two consecutive buffer uploads to queue 0 of a fresh
family. -/
def fuTwoRes : FamilyUploads :=
  (runUploads fuEmpty [reqW1, reqW2]).okOr fuEmpty

/-! ### Basic list lemmas for the embedding -/

theorem getD_some_lt {α : Type} {l : List (Option α)} {i : Nat} {b : α}
    (h : l.getD i none = some b) : i < l.length := by
  by_contra hi
  rw [List.getD_eq_getElem?_getD, List.getElem?_eq_none (by omega)] at h
  exact Option.noConfusion h

theorem getD_set_self {α : Type} (l : List α) (i : Nat) (a d : α)
    (h : i < l.length) : (l.set i a).getD i d = a := by
  rw [List.getD_eq_getElem?_getD, List.getElem?_set_self',
    List.getElem?_eq_getElem h]
  rfl

theorem length_padNext (l : List (Option NextUploads)) (q : Nat) :
    q < (padNext l q).length := by
  simp only [padNext, List.length_append, List.length_replicate]
  omega

theorem getD_padNext (l : List (Option NextUploads)) (q : Nat) :
    (padNext l q).getD q none = l.getD q none := by
  unfold padNext
  rcases Nat.lt_or_ge q l.length with h | h
  · rw [List.getD_eq_getElem?_getD, List.getElem?_append_left h,
      ← List.getD_eq_getElem?_getD]
  · rw [List.getD_eq_getElem?_getD, List.getElem?_append_right h,
      List.getElem?_replicate, List.getD_eq_getElem?_getD,
      List.getElem?_eq_none h]
    split <;> rfl

theorem vecPop_mem {α : Type} {l : List α} {x : α} {xs : List α}
    (h : vecPop l = some (x, xs)) : x ∈ l := by
  induction l generalizing x xs with
  | nil => exact Option.noConfusion h
  | cons hd tl ih =>
    rw [vecPop] at h
    cases htl : vecPop tl with
    | none =>
      rw [htl] at h
      cases h
      exact List.mem_cons_self _ _
    | some p =>
      rw [htl] at h
      cases h
      exact List.mem_cons_of_mem _ (ih htl)

theorem set_replicate_last {α : Type} (q : Nat) (a b : α) :
    (List.replicate (q + 1) a).set q b = List.replicate q a ++ [b] := by
  induction q with
  | zero => rfl
  | succ n ih => simpa [List.replicate_succ] using ih

/-! ### Behaviour of `next_upload` and `record` -/

theorem next_upload_pending (fu : FamilyUploads) (q : Nat) :
    (fu.next_upload q).pending = fu.pending := by
  unfold FamilyUploads.next_upload
  split <;> rfl

theorem next_upload_barriers (fu : FamilyUploads) (q : Nat) :
    (fu.next_upload q).barriers = fu.barriers := by
  unfold FamilyUploads.next_upload
  split <;> rfl

theorem record_pending (fu : FamilyUploads) (q : Nat) (c : Command)
    (s : Nat) : (fu.record q c s).pending = fu.pending := rfl

theorem record_barriers (fu : FamilyUploads) (q : Nat) (c : Command)
    (s : Nat) : (fu.record q c s).barriers = fu.barriers := rfl

theorem next_upload_slot_occupied (fu : FamilyUploads) (q : Nat)
    (b : NextUploads) (h : fu.next.getD q none = some b) :
    (fu.next_upload q).next = padNext fu.next q ∧
      (fu.next_upload q).next.getD q none = some b := by
  have h' : (padNext fu.next q).getD q none = some b := by
    rw [getD_padNext, h]
  unfold FamilyUploads.next_upload
  rw [h']
  exact ⟨rfl, h'⟩

theorem popOrAlloc_fst_spec (l : List CmdBuffer) (n : Nat) :
    (popOrAlloc l n).1 ∈ l ∨ (popOrAlloc l n).1.cmds = [] := by
  unfold popOrAlloc
  cases h : vecPop l with
  | none => exact Or.inr rfl
  | some p =>
    left
    obtain ⟨x, xs⟩ := p
    exact vecPop_mem h

theorem next_upload_slot_empty (fu : FamilyUploads) (q : Nat)
    (h : fu.next.getD q none = none) :
    ∃ b : NextUploads,
      (fu.next_upload q).next = (padNext fu.next q).set q (some b) ∧
      (fu.next_upload q).next.getD q none = some b ∧
      b.staging_buffers = [] ∧
      (b.command_buffer ∈ fu.command_buffers ∨ b.command_buffer.cmds = []) := by
  have h' : (padNext fu.next q).getD q none = none := by
    rw [getD_padNext, h]
  unfold FamilyUploads.next_upload
  rw [h']
  refine ⟨_, rfl, ?_, rfl, ?_⟩
  · exact getD_set_self _ _ _ _
      (by simpa using length_padNext fu.next q)
  · exact popOrAlloc_fst_spec fu.command_buffers fu.nextBufferId

theorem record_slot (fu : FamilyUploads) (q : Nat) (c : Command) (s : Nat)
    (b : NextUploads) (h : fu.next.getD q none = some b) :
    (fu.record q c s).next.getD q none = some (b.push c s) := by
  unfold FamilyUploads.record
  rw [h]
  exact getD_set_self _ _ _ _ (getD_some_lt h)

/-! ### Behaviour of `upload_buffer` -/

theorem valid_check (last : Option BufferState) (next : BufferState)
    (h : match last with
      | some l => l.queue = next.queue
      | none => True) :
    crossQueueCheck last next = false := by
  cases last with
  | none => rfl
  | some l => simpa [crossQueueCheck] using h

theorem record_next (fu : FamilyUploads) (q : Nat) (c : Command) (s : Nat) :
    (fu.record q c s).next =
      fu.next.set q ((fu.next.getD q none).map fun b => b.push c s) := rfl

theorem upload_buffer_ok (fu : FamilyUploads) (buffer : Buffer) (offset : Nat)
    (staging : Buffer) (last : Option BufferState) (next : BufferState)
    (hval : crossQueueCheck last next = false) :
    ∃ (fu' : FamilyUploads) (b₀ : NextUploads),
      upload_buffer fu buffer offset staging last next = UploadResult.ok fu' ∧
      fu'.next.getD next.queue.index none = some (b₀.push
        (Command.copyBuffer staging.id buffer.id
          { src := 0, dst := offset, size := staging.size }) staging.id) ∧
      fu'.pending = fu.pending ∧
      (fu.next.getD next.queue.index none = some b₀ ∨
        (fu.next.getD next.queue.index none = none ∧
          b₀.staging_buffers = [] ∧
          (b₀.command_buffer ∈ fu.command_buffers ∨
            b₀.command_buffer.cmds = []))) ∧
      fu'.next = (padNext fu.next next.queue.index).set next.queue.index
        (some (b₀.push (Command.copyBuffer staging.id buffer.id
          { src := 0, dst := offset, size := staging.size }) staging.id)) := by
  unfold upload_buffer
  rw [hval]
  simp only [Bool.false_eq_true, if_false]
  cases hslot : fu.next.getD next.queue.index none with
  | some b =>
    have hocc := next_upload_slot_occupied { fu with barriers := fu.barriers.add_buffer (last.map fun (l : BufferState) => (l.stage, l.access)) (next.stage, next.access) } next.queue.index b hslot
    refine ⟨_, b, rfl, ?_, ?_, Or.inl rfl, ?_⟩
    · exact record_slot _ _ _ _ b hocc.2
    · rw [record_pending, next_upload_pending]
    · simp only [record_next, hocc.1, hocc.2, getD_padNext, hslot,
        Option.map_some']
  | none =>
    obtain ⟨b, hset, hslot', hstag, hcb⟩ := next_upload_slot_empty { fu with barriers := fu.barriers.add_buffer (last.map fun (l : BufferState) => (l.stage, l.access)) (next.stage, next.access) } next.queue.index hslot
    refine ⟨_, b, rfl, record_slot _ _ _ _ b hslot', ?_,
      Or.inr ⟨rfl, hstag, hcb⟩, ?_⟩
    · rw [record_pending, next_upload_pending]
    · have hg : ((padNext fu.next next.queue.index).set next.queue.index (some b)).getD next.queue.index none = some b :=
        getD_set_self _ _ _ _
          (by simpa using length_padNext fu.next next.queue.index)
      simp only [record_next, hset, hg, Option.map_some', List.set_set]

theorem upload_buffer_cross_queue (fu : FamilyUploads) (buffer : Buffer)
    (offset : Nat) (staging : Buffer) (l : BufferState) (next : BufferState)
    (h : l.queue ≠ next.queue) :
    upload_buffer fu buffer offset staging (some l) next =
      UploadResult.panicked PanicReason.crossQueueSync := by
  unfold upload_buffer
  simp [crossQueueCheck, h]

/-! ### Behaviour of `cleanup` -/

theorem cleanupGo_spec (status : Nat → FenceStatus) :
    ∀ (l r rem : List PendingUploads), cleanupGo status l = some (r, rem) →
      l = r ++ rem ∧
      (∀ p ∈ r, status p.fence = FenceStatus.signaled) ∧
      (∀ p, rem.head? = some p →
        status p.fence = FenceStatus.unsignaled) := by
  intro l
  induction l with
  | nil =>
    intro r rem h
    rw [cleanupGo] at h
    cases h
    exact ⟨rfl, by simp, by simp⟩
  | cons p rest ih =>
    intro r rem h
    rw [cleanupGo] at h
    cases hst : status p.fence with
    | unsignaled =>
      rw [hst] at h
      cases h
      refine ⟨rfl, by simp, ?_⟩
      intro p' hp'
      rw [List.head?_cons] at hp'
      cases hp'
      exact hst
    | deviceLost =>
      rw [hst] at h
      exact Option.noConfusion h
    | signaled =>
      rw [hst] at h
      rw [Option.map_eq_some'] at h
      obtain ⟨⟨r', rem'⟩, hgo, heq⟩ := h
      cases heq
      obtain ⟨hl, hsig, hhead⟩ := ih _ _ hgo
      refine ⟨by rw [hl]; rfl, ?_, hhead⟩
      intro x hx
      rcases List.mem_cons.mp hx with hx | hx
      · rw [hx]
        exact hst
      · exact hsig x hx

/-! ### Behaviour of `flush` -/

theorem flushGo_mem (br : Barriers) :
    ∀ (l : List (Option NextUploads)) (i j : Nat) (b : NextUploads),
      l.getD j none = some b →
      (flushStep br (i + j) b).1 ∈ (flushGo br i l).1 ∧
      (flushStep br (i + j) b).2 ∈ (flushGo br i l).2 := by
  intro l
  induction l with
  | nil =>
    intro i j b h
    simp [List.getD] at h
  | cons hd tl ih =>
    intro i j b h
    cases hd with
    | none =>
      cases j with
      | zero => simp [List.getD] at h
      | succ j' =>
        have h' : tl.getD j' none = some b := by
          simpa [List.getD] using h
        have harith : i + (j' + 1) = (i + 1) + j' := by omega
        rw [harith]
        simpa [flushGo] using ih (i + 1) j' b h'
    | some b0 =>
      cases j with
      | zero =>
        have hb : b0 = b := by simpa [List.getD] using h
        subst hb
        constructor
        · simp [flushGo]
        · simp [flushGo]
      | succ j' =>
        have h' : tl.getD j' none = some b := by
          simpa [List.getD] using h
        have harith : i + (j' + 1) = (i + 1) + j' := by omega
        rw [harith]
        have := ih (i + 1) j' b h'
        constructor
        · simpa [flushGo] using Or.inr this.1
        · simpa [flushGo] using Or.inr this.2

theorem flushGo_queues (br : Barriers) :
    ∀ (l : List (Option NextUploads)) (i : Nat),
      (∀ s ∈ (flushGo br i l).1, i ≤ s.queue) ∧
      ((flushGo br i l).1.map Submission.queue).Pairwise (· < ·) := by
  intro l
  induction l with
  | nil => intro i; simp [flushGo]
  | cons hd tl ih =>
    intro i
    cases hd with
    | none =>
      obtain ⟨hle, hpw⟩ := ih (i + 1)
      refine ⟨?_, by simpa [flushGo] using hpw⟩
      intro s hs
      have := hle s (by simpa [flushGo] using hs)
      omega
    | some b =>
      obtain ⟨hle, hpw⟩ := ih (i + 1)
      constructor
      · intro s hs
        rw [flushGo] at hs
        rcases List.mem_cons.mp hs with hs | hs
        · rw [hs]
          exact Nat.le_refl _
        · have := hle s hs
          omega
      · rw [flushGo]
        rw [List.map_cons, List.pairwise_cons]
        refine ⟨?_, hpw⟩
        intro x hx
        rw [List.mem_map] at hx
        obtain ⟨s, hs, hxs⟩ := hx
        have := hle s hs
        have hq : (flushStep br i b).1.queue = i := rfl
        rw [hq, ← hxs]
        omega

theorem flushGo_corr (br : Barriers) :
    ∀ (l : List (Option NextUploads)) (i : Nat),
      ((flushGo br i l).2).map PendingUploads.fence =
        ((flushGo br i l).1).map Submission.fence ∧
      ((flushGo br i l).2).map
          (fun p => [p.barriers_buffer.id, p.command_buffer.id]) =
        ((flushGo br i l).1).map Submission.buffers := by
  intro l
  induction l with
  | nil => intro i; simp [flushGo]
  | cons hd tl ih =>
    intro i
    cases hd with
    | none => simpa [flushGo] using ih (i + 1)
    | some b =>
      obtain ⟨h1, h2⟩ := ih (i + 1)
      constructor
      · simp only [flushGo, List.map_cons, List.cons.injEq]
        exact ⟨rfl, h1⟩
      · simp only [flushGo, List.map_cons, List.cons.injEq]
        exact ⟨rfl, h2⟩

theorem flushGo_src (br : Barriers) :
    ∀ (l : List (Option NextUploads)) (i : Nat) (s : Submission),
      s ∈ (flushGo br i l).1 →
      ∃ j b, l.getD j none = some b ∧ s = (flushStep br (i + j) b).1 := by
  intro l
  induction l with
  | nil => intro i s hs; simp [flushGo] at hs
  | cons hd tl ih =>
    intro i s hs
    cases hd with
    | none =>
      obtain ⟨j, b, hj, hsb⟩ := ih (i + 1) s (by simpa [flushGo] using hs)
      refine ⟨j + 1, b, by simpa [List.getD] using hj, ?_⟩
      have harith : i + (j + 1) = (i + 1) + j := by omega
      rw [harith]
      exact hsb
    | some b0 =>
      rw [flushGo] at hs
      rcases List.mem_cons.mp hs with hs | hs
      · exact ⟨0, b0, by simp [List.getD], by simpa using hs⟩
      · obtain ⟨j, b, hj, hsb⟩ := ih (i + 1) s hs
        refine ⟨j + 1, b, by simpa [List.getD] using hj, ?_⟩
        have harith : i + (j + 1) = (i + 1) + j := by omega
        rw [harith]
        exact hsb

/-! ### Behaviour of `upload_image` -/

theorem upload_image_finish_ok (fu : FamilyUploads) (image : Image)
    (image_range : SubresourceRange) (last_stage last_access : Nat)
    (last_layout : Layout) (data_width data_height : Nat)
    (image_layers : SubresourceLayers) (image_offset : Offset)
    (image_extent : Extent) (staging : Buffer) (next : ImageState) :
    ∃ fu', upload_image_finish fu image image_range last_stage last_access
        last_layout data_width data_height image_layers image_offset
        image_extent staging next = UploadResult.ok fu' ∧
      fu'.barriers = fu.barriers.add_image image.id image_range last_stage
        last_access last_layout (target_layout last_layout next.layout)
        next.stage next.access next.layout := by
  refine ⟨_, rfl, ?_⟩
  rw [record_barriers, next_upload_barriers]

theorem upload_image_ok_barriers (fu : FamilyUploads) (image : Image)
    (data_width data_height : Nat) (image_layers : SubresourceLayers)
    (image_offset : Offset) (image_extent : Extent) (staging : Buffer)
    (last : ImageStateOrLayout) (next : ImageState) (fu' : FamilyUploads)
    (h : upload_image fu image data_width data_height image_layers
      image_offset image_extent staging last next = UploadResult.ok fu') :
    ∃ last_stage last_access,
      fu'.barriers = fu.barriers.add_image image.id
        { aspects := image_layers.aspects,
          levels := (image_layers.level, image_layers.level + 1),
          layers := image_layers.layers }
        last_stage last_access
        (beforeLayout image image_offset image_extent last)
        (target_layout (beforeLayout image image_offset image_extent last)
          next.layout)
        next.stage next.access next.layout := by
  unfold upload_image at h
  cases last with
  | State l =>
    dsimp only at h
    by_cases hq : l.queue ≠ next.queue
    · rw [if_pos hq] at h
      simp at h
    · rw [if_neg hq] at h
      obtain ⟨fu₁, heq, hbar⟩ := upload_image_finish_ok fu image _ l.stage l.access _ data_width data_height image_layers image_offset image_extent staging next
      rw [heq] at h
      injection h with h
      subst h
      refine ⟨l.stage, l.access, ?_⟩
      simpa [beforeLayout, reportedLayout] using hbar
  | Layout ll =>
    dsimp only at h
    obtain ⟨fu₁, heq, hbar⟩ := upload_image_finish_ok fu image _ TOP_OF_PIPE imageAccessEmpty _ data_width data_height image_layers image_offset image_extent staging next
    rw [heq] at h
    injection h with h
    subst h
    refine ⟨TOP_OF_PIPE, imageAccessEmpty, ?_⟩
    simpa [beforeLayout, reportedLayout] using hbar

theorem upload_buffer_check_true (fu : FamilyUploads) (buffer : Buffer)
    (offset : Nat) (staging : Buffer) (last : Option BufferState)
    (next : BufferState)
    (hc : crossQueueCheck last next = true) :
    upload_buffer fu buffer offset staging last next =
      UploadResult.panicked PanicReason.crossQueueSync := by
  unfold upload_buffer
  rw [hc]
  simp

/-! ### Claim theorems -/

/-- C3: the target layout `upload_image` selects is a total function of the
pair (previous layout, next layout): `General` whenever the next layout is
`General`, otherwise `General` whenever the previous layout is `General`,
otherwise `TransferDstOptimal`; in particular
(TransferDstOptimal, General) maps to General,
(General, ShaderReadOnlyOptimal) maps to General, and
(Undefined, ShaderReadOnlyOptimal) maps to TransferDstOptimal. -/
theorem c3_target_layout_table :
    (∀ l : Layout, target_layout l Layout.General = Layout.General) ∧
    (∀ n : Layout, target_layout Layout.General n = Layout.General) ∧
    (∀ l n : Layout, l ≠ Layout.General → n ≠ Layout.General →
      target_layout l n = Layout.TransferDstOptimal) ∧
    target_layout Layout.TransferDstOptimal Layout.General = Layout.General ∧
    target_layout Layout.General Layout.ShaderReadOnlyOptimal =
      Layout.General ∧
    target_layout Layout.Undefined Layout.ShaderReadOnlyOptimal =
      Layout.TransferDstOptimal := by
  decide

/-- Witness for C3 at a concrete input: `Undefined`/`ShaderReadOnlyOptimal`
are both different from `General` and map to `TransferDstOptimal`. -/
theorem c3_target_layout_table_witness :
    target_layout Layout.Undefined Layout.ShaderReadOnlyOptimal =
      Layout.TransferDstOptimal :=
  c3_target_layout_table.2.2.1 Layout.Undefined Layout.ShaderReadOnlyOptimal
    (by decide) (by decide)

/-- C2 (code evidence): a buffer or image upload whose prior state names a
different queue than the next state does not return an error value — it hits
`unimplemented!("Can't sync resources across queues")`, i.e. a
process-aborting panic, contradicting the claim that an explicit
"unsupported cross-queue transfer" error is surfaced to the caller. -/
theorem c2_cross_queue_panics :
    upload_buffer fuEmpty bufW 0 stagingW (some lastBufX) nextBufX =
      UploadResult.panicked PanicReason.crossQueueSync ∧
    upload_image fuEmpty imgW 4 4 layersW offX extX stagingW
        (ImageStateOrLayout.State lastImgX) nextImgX =
      UploadResult.panicked PanicReason.crossQueueSync := by
  exact ⟨rfl, rfl⟩

/-- C10: every successful `upload_buffer` records a copy command whose region
starts at source offset 0, targets destination offset `offset`, and spans the
staging buffer's entire size — never a partial copy of the staging buffer. -/
theorem c10_full_staging_copy (fu : FamilyUploads) (buffer : Buffer)
    (offset : Nat) (staging : Buffer) (last : Option BufferState)
    (next : BufferState) (fu' : FamilyUploads)
    (h : upload_buffer fu buffer offset staging last next =
      UploadResult.ok fu') :
    ∃ b : NextUploads, fu'.next.getD next.queue.index none = some b ∧
      b.command_buffer.cmds.getLast? = some (Command.copyBuffer staging.id
        buffer.id { src := 0, dst := offset, size := staging.size }) := by
  by_cases hc : crossQueueCheck last next = false
  · obtain ⟨fu'', b₀, heq, hslot, -, -, -⟩ :=
      upload_buffer_ok fu buffer offset staging last next hc
    rw [heq] at h
    injection h with h
    subst h
    exact ⟨_, hslot, by simp [NextUploads.push]⟩
  · rw [upload_buffer_check_true fu buffer offset staging last next
      (by simpa using hc)] at h
    simp at h

/-- Witness for C10: a concrete buffer upload into a fresh family records the
whole-staging-buffer copy. -/
theorem c10_full_staging_copy_witness :
    ∃ b : NextUploads, fuBufRes.next.getD nextBufW.queue.index none = some b ∧
      b.command_buffer.cmds.getLast? = some (Command.copyBuffer stagingW.id
        bufW.id { src := 0, dst := 0, size := stagingW.size }) :=
  c10_full_staging_copy fuEmpty bufW 0 stagingW none nextBufW fuBufRes
    (by rfl)

/-- C4: the "before" layout `upload_image` hands to the barrier batch is
`Undefined` whenever the requested region is the whole image (offset zero and
extent equal to the image's full extent), regardless of the reported prior
layout; otherwise it is exactly the reported prior layout. -/
theorem c4_whole_image_undefined (fu : FamilyUploads) (image : Image)
    (dw dh : Nat) (layers : SubresourceLayers) (off : Offset) (ext : Extent)
    (staging : Buffer) (last : ImageStateOrLayout) (next : ImageState)
    (fu' : FamilyUploads)
    (h : upload_image fu image dw dh layers off ext staging last next =
      UploadResult.ok fu') :
    ∃ r : ImageBarrierReq,
      fu'.barriers.reqs = fu.barriers.reqs ++ [BarrierReq.image r] ∧
      (off = Offset.ZERO ∧ ext = image.kind.extent →
        r.last_layout = Layout.Undefined) ∧
      (¬(off = Offset.ZERO ∧ ext = image.kind.extent) →
        r.last_layout = reportedLayout last) := by
  obtain ⟨ls, la, hbar⟩ :=
    upload_image_ok_barriers fu image dw dh layers off ext staging last next
      fu' h
  refine ⟨_, by rw [hbar]; rfl, ?_, ?_⟩
  · intro hw
    simp [beforeLayout, hw.1, hw.2]
  · intro hw
    cases hcond : (decide (off = Offset.ZERO) &&
        decide (ext = image.kind.extent)) with
    | false => simp [beforeLayout, hcond]
    | true =>
      exfalso
      apply hw
      simpa using hcond

/-- Witness for C4: a concrete whole-image upload (offset zero, full 4x4x1
extent) with a `ShaderReadOnlyOptimal` prior state. -/
theorem c4_whole_image_undefined_witness :
    ∃ r : ImageBarrierReq,
      fuImgWholeRes.barriers.reqs =
        fuEmpty.barriers.reqs ++ [BarrierReq.image r] ∧
      (Offset.ZERO = Offset.ZERO ∧ extW = imgW.kind.extent →
        r.last_layout = Layout.Undefined) ∧
      (¬(Offset.ZERO = Offset.ZERO ∧ extW = imgW.kind.extent) →
        r.last_layout =
          reportedLayout (ImageStateOrLayout.State lastImgW)) :=
  c4_whole_image_undefined fuEmpty imgW 4 4 layersW Offset.ZERO extW stagingW
    (ImageStateOrLayout.State lastImgW) nextImgW fuImgWholeRes (by rfl)

/-- C9: the subresource range `upload_image` registers with the barrier batch
spans exactly one mip level — the requested one, as the half-open range
`level..level+1` — together with the requested layer range and aspect
mask. -/
theorem c9_single_mip_range (fu : FamilyUploads) (image : Image)
    (dw dh : Nat) (layers : SubresourceLayers) (off : Offset) (ext : Extent)
    (staging : Buffer) (last : ImageStateOrLayout) (next : ImageState)
    (fu' : FamilyUploads)
    (h : upload_image fu image dw dh layers off ext staging last next =
      UploadResult.ok fu') :
    ∃ r : ImageBarrierReq,
      fu'.barriers.reqs = fu.barriers.reqs ++ [BarrierReq.image r] ∧
      r.range = { aspects := layers.aspects,
                  levels := (layers.level, layers.level + 1),
                  layers := layers.layers } := by
  obtain ⟨ls, la, hbar⟩ :=
    upload_image_ok_barriers fu image dw dh layers off ext staging last next
      fu' h
  exact ⟨_, by rw [hbar]; rfl, rfl⟩

/-- Witness for C9: a concrete partial-region image upload registers the
single-mip range `(0, 1)` for level 0. -/
theorem c9_single_mip_range_witness :
    ∃ r : ImageBarrierReq,
      fuImgPartRes.barriers.reqs =
        fuEmpty.barriers.reqs ++ [BarrierReq.image r] ∧
      r.range = { aspects := layersW.aspects,
                  levels := (layersW.level, layersW.level + 1),
                  layers := layersW.layers } :=
  c9_single_mip_range fuEmpty imgW 4 4 layersW offX extX stagingW
    (ImageStateOrLayout.State lastImgW) nextImgW fuImgPartRes (by rfl)

theorem flushGo_single (br : Barriers) :
    ∀ (q i : Nat) (b : NextUploads),
      flushGo br i (List.replicate q none ++ [some b]) =
        ([(flushStep br (i + q) b).1], [(flushStep br (i + q) b).2]) := by
  intro q
  induction q with
  | zero => intro i b; simp [flushGo]
  | succ n ih =>
    intro i b
    rw [List.replicate_succ, List.cons_append]
    have harith : i + (n + 1) = (i + 1) + n := by omega
    rw [harith]
    rw [← ih (i + 1) b]
    rfl

/-- C1: cleanup always inspects the pending FIFO from its oldest batch; if
batch k's fence is unsignaled, cleanup stops before it: the surviving FIFO is
`drop n` of the original for some n ≤ k (so batch k and every later batch,
signaled or not, are still pending), and every reclaimed batch (index < n) had
a signaled fence. -/
theorem c1_fifo_order_cleanup (fu fu' : FamilyUploads)
    (status : Nat → FenceStatus) (rel : List Nat) (k : Nat)
    (p : PendingUploads)
    (hclean : FamilyUploads.cleanup status fu = some (fu', rel))
    (hk : fu.pending[k]? = some p)
    (hunsig : status p.fence = FenceStatus.unsignaled) :
    ∃ n, n ≤ k ∧ fu'.pending = fu.pending.drop n ∧
      (∀ i, i < n → ∃ pi, fu.pending[i]? = some pi ∧
        status pi.fence = FenceStatus.signaled) := by
  unfold FamilyUploads.cleanup at hclean
  rw [Option.map_eq_some'] at hclean
  obtain ⟨⟨r, rem⟩, hgo, heq⟩ := hclean
  obtain ⟨hl, hsig, hhead⟩ := cleanupGo_spec status fu.pending r rem hgo
  cases heq
  refine ⟨r.length, ?_, ?_, ?_⟩
  · by_contra hlt
    push_neg at hlt
    rw [hl, List.getElem?_append_left hlt] at hk
    have hmem : p ∈ r := List.getElem?_mem hk
    rw [hsig p hmem] at hunsig
    exact FenceStatus.noConfusion hunsig
  · show rem = fu.pending.drop r.length
    rw [hl, List.drop_left]
  · intro i hi
    refine ⟨r.get ⟨i, hi⟩, ?_, hsig _ (r.get_mem i hi)⟩
    rw [hl, List.getElem?_append_left hi]
    exact List.getElem?_eq_getElem hi

/-- Witness for C1: with batch 0 unsignaled and batch 1 signaled, cleanup
reclaims nothing (n = 0) and both batches stay in the FIFO. -/
theorem c1_fifo_order_cleanup_witness :
    ∃ n, n ≤ 0 ∧ fuPendW.pending = fuPendW.pending.drop n ∧
      (∀ i, i < n → ∃ pi, fuPendW.pending[i]? = some pi ∧
        statusW pi.fence = FenceStatus.signaled) :=
  c1_fifo_order_cleanup fuPendW fuPendW statusW [] 0 pendW0 (by rfl) (by rfl)
    (by rfl)

/-- C5: for every queue slot holding a recording batch, flush submits that
batch's barrier buffer first and copy buffer second with the batch's fence;
the submissions are in strictly increasing queue-index order; and the batches
are appended at the tail of the pending FIFO in submission order (matching
fences and command-buffer pairs). -/
theorem c5_flush_submissions (fu fu' : FamilyUploads) (subs : List Submission)
    (h : fu.flush = (fu', subs)) :
    (∀ j b, fu.next.getD j none = some b →
      ({ queue := j, buffers := [b.barriers_buffer.id, b.command_buffer.id],
         fence := b.fence } : Submission) ∈ subs) ∧
    (subs.map Submission.queue).Pairwise (· < ·) ∧
    ∃ ps, fu'.pending = fu.pending ++ ps ∧
      ps.map PendingUploads.fence = subs.map Submission.fence ∧
      ps.map (fun p => [p.barriers_buffer.id, p.command_buffer.id]) =
        subs.map Submission.buffers := by
  unfold FamilyUploads.flush at h
  dsimp only at h
  injection h with h1 h2
  subst h1
  subst h2
  refine ⟨?_, (flushGo_queues fu.barriers fu.next 0).2, ?_⟩
  · intro j b hj
    have hm := (flushGo_mem fu.barriers fu.next 0 j b hj).1
    simpa [flushStep] using hm
  · exact ⟨(flushGo fu.barriers 0 fu.next).2, rfl,
      (flushGo_corr fu.barriers fu.next 0).1,
      (flushGo_corr fu.barriers fu.next 0).2⟩

/-- Witness for C5: flushing a family with one recording batch on queue 0
submits that batch's barrier buffer and copy buffer with its fence. -/
theorem c5_flush_submissions_witness :
    ({ queue := 0,
       buffers := [batchW.barriers_buffer.id, batchW.command_buffer.id],
       fence := batchW.fence } : Submission) ∈ (fuNextW.flush).2 :=
  (c5_flush_submissions fuNextW (fuNextW.flush).1 (fuNextW.flush).2 rfl).1
    0 batchW (by rfl)

/-- C6: after flush no queue has a recording batch (`next` is drained); every
submission comes from a queue that held a recording batch (so queues without
one get no submission); each recording batch has moved into the pending FIFO;
and the command-buffer and fence free-lists are untouched. -/
theorem c6_flush_drains (fu fu' : FamilyUploads) (subs : List Submission)
    (h : fu.flush = (fu', subs)) :
    fu'.next = [] ∧
    (∀ s ∈ subs, ∃ b, fu.next.getD s.queue none = some b) ∧
    (∀ j b, fu.next.getD j none = some b →
      ∃ p ∈ fu'.pending, p.fence = b.fence ∧
        p.staging_buffers = b.staging_buffers) ∧
    fu'.command_buffers = fu.command_buffers ∧
    fu'.barriers_buffers = fu.barriers_buffers ∧
    fu'.fences = fu.fences := by
  unfold FamilyUploads.flush at h
  dsimp only at h
  injection h with h1 h2
  subst h1
  subst h2
  refine ⟨rfl, ?_, ?_, rfl, rfl, rfl⟩
  · intro s hs
    obtain ⟨j, b, hj, hsb⟩ := flushGo_src fu.barriers fu.next 0 s hs
    subst hsb
    exact ⟨b, by simpa using hj⟩
  · intro j b hj
    have hm := (flushGo_mem fu.barriers fu.next 0 j b hj).2
    exact ⟨(flushStep fu.barriers (0 + j) b).2,
      List.mem_append_right _ hm, rfl, rfl⟩

/-- Witness for C6: flushing the one-recording-batch family leaves no
recording batch behind. -/
theorem c6_flush_drains_witness : ((fuNextW.flush).1).next = [] :=
  (c6_flush_drains fuNextW (fuNextW.flush).1 (fuNextW.flush).2 rfl).1

theorem runUploads_occupied (q : Nat) :
    ∀ (reqs : List UploadReq) (fu : FamilyUploads) (b : NextUploads)
      (fu' : FamilyUploads),
      (∀ r ∈ reqs, r.valid ∧ r.next.queue.index = q) →
      fu.next.getD q none = some b →
      runUploads fu reqs = UploadResult.ok fu' →
      fu'.next.getD q none = some
        { b with
            command_buffer := { b.command_buffer with
                                cmds := b.command_buffer.cmds ++
                                  reqs.map UploadReq.copyCmd },
            staging_buffers := b.staging_buffers ++
              reqs.map fun r => r.staging.id } := by
  intro reqs
  induction reqs with
  | nil =>
    intro fu b fu' _ hb hrun
    rw [runUploads] at hrun
    injection hrun with hrun
    subst hrun
    simpa using hb
  | cons r rs ih =>
    intro fu b fu' hall hb hrun
    have hv := hall r (List.mem_cons_self r rs)
    rw [runUploads] at hrun
    have hcheck : crossQueueCheck r.last r.next = false :=
      valid_check r.last r.next hv.1
    obtain ⟨fu₁, b₀, heq, hslot, -, hcase, -⟩ :=
      upload_buffer_ok fu r.buffer r.offset r.staging r.last r.next hcheck
    rw [heq] at hrun
    dsimp only at hrun
    rw [hv.2] at hslot
    rcases hcase with hcase | hcase
    · rw [hv.2, hb] at hcase
      injection hcase with hcase
      subst hcase
      have hstep := ih fu₁ _ fu'
        (fun x hx => hall x (List.mem_cons_of_mem r hx)) hslot hrun
      simpa [NextUploads.push, UploadReq.copyCmd, List.append_assoc]
        using hstep
    · rw [hv.2, hb] at hcase
      exact absurd hcase.1 (by simp)

/-- C7: between two flushes, all upload requests targeting the same queue go
into a single recording batch: starting from a family whose slot for queue q
is idle (and whose pooled command buffers are reset), running any nonempty
sequence of valid requests targeting q leaves exactly one batch in slot q,
holding all the copy commands in order and owning all the staging buffers in
order. -/
theorem c7_single_recording_batch (fu₀ : FamilyUploads) (q : Nat)
    (reqs : List UploadReq) (fu' : FamilyUploads)
    (hall : ∀ r ∈ reqs, r.valid ∧ r.next.queue.index = q)
    (hslot : fu₀.next.getD q none = none)
    (hcb : ∀ cb ∈ fu₀.command_buffers, cb.cmds = [])
    (hne : reqs ≠ [])
    (hrun : runUploads fu₀ reqs = UploadResult.ok fu') :
    ∃ b : NextUploads, fu'.next.getD q none = some b ∧
      b.command_buffer.cmds = reqs.map UploadReq.copyCmd ∧
      b.staging_buffers = reqs.map fun r => r.staging.id := by
  cases reqs with
  | nil => exact absurd rfl hne
  | cons r rs =>
    have hv := hall r (List.mem_cons_self r rs)
    rw [runUploads] at hrun
    have hcheck : crossQueueCheck r.last r.next = false :=
      valid_check r.last r.next hv.1
    obtain ⟨fu₁, b₀, heq, hslot', -, hcase, -⟩ :=
      upload_buffer_ok fu₀ r.buffer r.offset r.staging r.last r.next hcheck
    rw [heq] at hrun
    dsimp only at hrun
    rw [hv.2] at hslot'
    rcases hcase with hcase | ⟨-, hstag, hcmds⟩
    · rw [hv.2, hslot] at hcase
      exact absurd hcase (by simp)
    · have hc0 : b₀.command_buffer.cmds = [] := by
        rcases hcmds with hmem | hnil
        · exact hcb _ hmem
        · exact hnil
      have hmain := runUploads_occupied q rs fu₁ _ fu'
        (fun x hx => hall x (List.mem_cons_of_mem r hx)) hslot' hrun
      refine ⟨_, hmain, ?_, ?_⟩
      · simp [NextUploads.push, hc0, UploadReq.copyCmd]
      · simp [NextUploads.push, hstag]

/-- Witness for C7: two concrete uploads to queue 0 of a fresh family land in
one batch holding both copies and both staging buffers in order. -/
theorem c7_single_recording_batch_witness :
    ∃ b : NextUploads, fuTwoRes.next.getD 0 none = some b ∧
      b.command_buffer.cmds = [reqW1, reqW2].map UploadReq.copyCmd ∧
      b.staging_buffers = [reqW1, reqW2].map fun r => r.staging.id := by
  refine c7_single_recording_batch fuEmpty 0 [reqW1, reqW2] fuTwoRes ?_
    (by rfl) (by intro cb hcb; simp [fuEmpty] at hcb) (by simp) (by rfl)
  intro r hr
  rcases List.mem_cons.mp hr with hr | hr
  · subst hr
    exact ⟨trivial, rfl⟩
  · rcases List.mem_cons.mp hr with hr | hr
    · subst hr
      exact ⟨trivial, rfl⟩
    · simp at hr

/-- C8: one buffer upload into an idle family, then a flush; once the batch's
fence is signaled, a cleanup removes the batch from the pending FIFO,
releases exactly its one staging buffer, and pushes exactly one fence, one
copy command buffer and one barrier command buffer back onto the respective
free-lists. -/
theorem c8_roundtrip (fu₀ : FamilyUploads) (buffer : Buffer) (offset : Nat)
    (staging : Buffer) (next : BufferState) (status : Nat → FenceStatus)
    (fu₁ fu₂ : FamilyUploads) (subs : List Submission)
    (hnext : fu₀.next = [])
    (hpend : fu₀.pending = [])
    (hup : upload_buffer fu₀ buffer offset staging none next =
      UploadResult.ok fu₁)
    (hfl : fu₁.flush = (fu₂, subs))
    (hsig : ∀ p ∈ fu₂.pending, status p.fence = FenceStatus.signaled) :
    ∃ fu₃, FamilyUploads.cleanup status fu₂ = some (fu₃, [staging.id]) ∧
      fu₃.pending = [] ∧
      fu₃.fences.length = fu₂.fences.length + 1 ∧
      fu₃.command_buffers.length = fu₂.command_buffers.length + 1 ∧
      fu₃.barriers_buffers.length = fu₂.barriers_buffers.length + 1 ∧
      subs.length = 1 := by
  obtain ⟨fu₁', b₀, heq, -, hpend', hcase, hnextEq⟩ :=
    upload_buffer_ok fu₀ buffer offset staging none next rfl
  rw [heq] at hup
  injection hup with hup
  subst hup
  have hslot0 : fu₀.next.getD next.queue.index none = none := by
    rw [hnext]
    rfl
  rcases hcase with hcase | ⟨-, hstag, -⟩
  · rw [hslot0] at hcase
    exact absurd hcase (by simp)
  have hN : fu₁'.next = List.replicate next.queue.index none ++
      [some (b₀.push (Command.copyBuffer staging.id buffer.id
        { src := 0, dst := offset, size := staging.size }) staging.id)] := by
    rw [hnextEq, hnext]
    rw [show padNext [] next.queue.index =
        List.replicate (next.queue.index + 1) none from by simp [padNext]]
    exact set_replicate_last _ _ _
  unfold FamilyUploads.flush at hfl
  dsimp only at hfl
  injection hfl with h1 h2
  set P := (flushStep fu₁'.barriers (0 + next.queue.index)
    (b₀.push (Command.copyBuffer staging.id buffer.id
      { src := 0, dst := offset, size := staging.size }) staging.id)).2 with hP
  have hpend2 : fu₂.pending = [P] := by
    rw [← h1]
    dsimp only
    rw [hpend', hpend, hN, flushGo_single]
    simp [hP]
  have hsubs : subs.length = 1 := by
    rw [← h2, hN, flushGo_single]
    rfl
  have hsigP : status P.fence = FenceStatus.signaled :=
    hsig P (by rw [hpend2]; exact List.mem_cons_self _ _)
  have hstagP : P.staging_buffers = [staging.id] := by
    rw [hP]
    show (b₀.push (Command.copyBuffer staging.id buffer.id
      { src := 0, dst := offset, size := staging.size })
        staging.id).staging_buffers = [staging.id]
    simp [NextUploads.push, hstag]
  have hgo : cleanupGo status [P] = some ([P], []) := by
    rw [cleanupGo, hsigP, cleanupGo]
    rfl
  have hclean : FamilyUploads.cleanup status fu₂ =
      some (afterCleanup fu₂ [P] [], [staging.id]) := by
    unfold FamilyUploads.cleanup
    rw [hpend2, hgo]
    simp [hstagP]
  refine ⟨_, hclean, rfl, ?_, ?_, ?_, hsubs⟩
  · simp [afterCleanup]
  · simp [afterCleanup]
  · simp [afterCleanup]

/-- Witness for C8: concrete upload of `stagingW` into a fresh family, flush,
all fences signaled, cleanup. -/
theorem c8_roundtrip_witness :
    ∃ fu₃, FamilyUploads.cleanup statusAll (fuBufRes.flush).1 =
        some (fu₃, [stagingW.id]) ∧
      fu₃.pending = [] ∧
      fu₃.fences.length = ((fuBufRes.flush).1).fences.length + 1 ∧
      fu₃.command_buffers.length =
        ((fuBufRes.flush).1).command_buffers.length + 1 ∧
      fu₃.barriers_buffers.length =
        ((fuBufRes.flush).1).barriers_buffers.length + 1 ∧
      ((fuBufRes.flush).2).length = 1 :=
  c8_roundtrip fuEmpty bufW 0 stagingW nextBufW statusAll fuBufRes
    (fuBufRes.flush).1 (fuBufRes.flush).2 rfl rfl (by rfl) rfl
    (fun p _ => rfl)
